import Mathlib

/-!
Shallow embedding of the crawl-result comparison and consistency engine
(`compare/compare_crawlers.py`, `analysis/race_condition/analyze_crawls.py`,
`analysis/race_condition/detailed_analysis.py`), with proofs checking the
specification's claims against the embedded code.

Strings are modeled as Lean `String`s and manipulated through their character
lists.  Python floats are modeled as exact rationals (`ℚ`).
-/

/-- Decidable substring test on character lists; models Python's `pat in s`
operator for strings. -/
def containsSub (pat : List Char) : List Char → Bool
  | [] => pat.isEmpty
  | c :: rest => pat.isPrefixOf (c :: rest) || containsSub pat rest

/-- Python `pat in s` on strings. -/
def strContains (s pat : String) : Bool := containsSub pat.toList s.toList

/-- Python `str.lower()`, modeled characterwise with `Char.toLower`
(faithful on the ASCII range, which is all the comparison code relies on). -/
def strLower (s : String) : String := String.mk (s.toList.map Char.toLower)

/-- Value of a hexadecimal digit character, if it is one. -/
def hexVal (c : Char) : Option ℕ :=
  if '0' ≤ c ∧ c ≤ '9' then some (c.toNat - 48)
  else if 'a' ≤ c ∧ c ≤ 'f' then some (c.toNat - 87)
  else if 'A' ≤ c ∧ c ≤ 'F' then some (c.toNat - 55)
  else none

/-- Percent-decoding on a character list: each valid `%XX` escape becomes the
character with code `16*X₁+X₂`, while invalid escapes are kept literally.
Models `urllib.parse.unquote` (exact for ASCII escapes; runs of escaped
bytes ≥ 0x80 are not recombined into multi-byte UTF-8 characters — no claim
distinguishes the two behaviours). -/
def unquoteList : List Char → List Char
  | [] => []
  | '%' :: c₁ :: c₂ :: rest =>
    match hexVal c₁, hexVal c₂ with
    | some h, some l => Char.ofNat (16 * h + l) :: unquoteList rest
    | _, _ => '%' :: unquoteList (c₁ :: c₂ :: rest)
  | c :: rest => c :: unquoteList rest

/-- `urllib.parse.unquote` on strings. -/
def unquote (s : String) : String := String.mk (unquoteList s.toList)

/-- Python `url.rstrip("/")`: removes every trailing `/` character. -/
def rstripSlash (s : String) : String :=
  String.mk ((s.toList.reverse.dropWhile (· == '/')).reverse)

/-- `CrawlerComparison.normalize_url`: first strip all trailing slashes, then
percent-decode — in this order, exactly as the code does. -/
def normalize_url (url : String) : String :=
  let url := rstripSlash url
  let url := unquote url
  url

/-- Strip exactly one trailing slash, if one is present. -/
def stripOneTrailingSlash (s : String) : String :=
  match s.toList.getLast? with
  | some '/' => String.mk s.toList.dropLast
  | _ => s

/-- URL normalization as the specification words it (for comparison with the
code's `normalize_url`): FIRST percent-decode the whole string, THEN strip
exactly one trailing `/`. -/
def normalize_url_spec (url : String) : String :=
  stripOneTrailingSlash (unquote url)

-- Auxiliary lemmas about the string helpers.

lemma toList_append (a b : String) : (a ++ b).toList = a.toList ++ b.toList :=
  String.data_append a b

lemma toList_mk (l : List Char) : (String.mk l).toList = l := rfl

lemma dropWhile_replicate_append (p : Char → Bool) (c : Char) (hc : p c = true)
    (n : ℕ) (l : List Char) :
    List.dropWhile p (List.replicate n c ++ l) = List.dropWhile p l := by
  induction n with
  | zero => rfl
  | succ k ih => simp [List.replicate_succ, List.dropWhile_cons, hc, ih]

lemma dropWhile_dropWhile (p : Char → Bool) (l : List Char) :
    List.dropWhile p (List.dropWhile p l) = List.dropWhile p l := by
  induction l with
  | nil => rfl
  | cons c rest ih =>
    by_cases h : p c <;> simp [List.dropWhile_cons, h, ih]

lemma rstripSlash_append_replicate (u : String) (n : ℕ) :
    rstripSlash (u ++ String.mk (List.replicate n '/')) = rstripSlash u := by
  unfold rstripSlash
  simp only [toList_append, toList_mk, List.reverse_append, List.reverse_replicate]
  rw [dropWhile_replicate_append _ _ (by decide)]

lemma rstripSlash_idem (u : String) : rstripSlash (rstripSlash u) = rstripSlash u := by
  unfold rstripSlash
  rw [toList_mk, List.reverse_reverse, dropWhile_dropWhile]

lemma unquoteList_cons_ne (c : Char) (rest : List Char) (hc : c ≠ '%') :
    unquoteList (c :: rest) = c :: unquoteList rest := by
  conv_lhs => rw [unquoteList.eq_def]
  split
  · rename_i h
    exact (List.cons_ne_nil c rest h).elim
  · rename_i c₁ c₂ rest' h
    exact absurd ((List.cons.injEq ..).mp h).1 hc
  · rename_i x c' rest' hno h
    obtain ⟨h₁, h₂⟩ := (List.cons.injEq ..).mp h
    rw [h₁, h₂]

lemma unquoteList_no_percent (l : List Char) (h : '%' ∉ l) : unquoteList l = l := by
  induction l with
  | nil => rfl
  | cons c rest ih =>
    have hc : c ≠ '%' := fun e => h (e ▸ List.mem_cons_self ..)
    rw [unquoteList_cons_ne c rest hc, ih (fun hm => h (List.mem_cons_of_mem _ hm))]

lemma mem_rstripSlash {c : Char} {u : String} (h : c ∈ (rstripSlash u).toList) :
    c ∈ u.toList := by
  unfold rstripSlash at h
  rw [toList_mk, List.mem_reverse] at h
  have := (List.dropWhile_sublist (l := u.toList.reverse) (p := (· == '/'))).mem h
  rwa [List.mem_reverse] at this

lemma unquote_of_no_percent (u : String) (h : '%' ∉ u.toList) : unquote u = u := by
  unfold unquote
  rw [unquoteList_no_percent _ h]
  cases u
  rfl

/-- Claim C2, counterexample.  The code strips ALL trailing slashes BEFORE
percent-decoding, while the claim says it percent-decodes first and then
strips exactly one trailing slash: the two disagree on `"x//"` (code `"x"`,
claim `"x/"`) and on `"a%2F"` (code keeps the decoded slash, `"a/"`; the
claim strips it, `"a"`). -/
theorem normalize_url_spec_order_counterexample :
    normalize_url "x//" = "x" ∧ normalize_url_spec "x//" = "x/" ∧
    normalize_url "x//" ≠ normalize_url_spec "x//" ∧
    normalize_url "a%2F" = "a/" ∧ normalize_url_spec "a%2F" = "a" ∧
    normalize_url "a%2F" ≠ normalize_url_spec "a%2F" := by
  refine ⟨?_, ?_, ?_, ?_, ?_, ?_⟩ <;> decide

/-- Claim C2, amended: `normalize_url u` equals the result of first stripping
ALL trailing `/` characters and then percent-decoding the remainder; hence a
URL ending in several slashes loses them all, and a URL whose trailing slash
is percent-encoded (`%2F`) keeps that slash in decoded form (it is not
stripped, because decoding happens after stripping). -/
theorem normalize_url_strips_all_then_decodes :
    (∀ u : String, normalize_url u = unquote (rstripSlash u)) ∧
    (∀ (u : String) (n : ℕ),
      normalize_url (u ++ String.mk (List.replicate n '/')) = normalize_url u) ∧
    normalize_url "a%2F" = "a/" := by
  refine ⟨fun u => rfl, fun u n => ?_, by decide⟩
  unfold normalize_url
  rw [rstripSlash_append_replicate]

/-- Claim C3, counterexample: URL normalization is NOT idempotent.  On
`"a%2F"` one application yields `"a/"`; the second application strips the
slash that only appeared after decoding, yielding `"a"`. -/
theorem normalize_url_not_idempotent :
    normalize_url (normalize_url "a%2F") ≠ normalize_url "a%2F" := by decide

/-- Claim C3, amended: URL normalization is idempotent on every string that
contains no `%` character (percent-decoding is then the identity, and
stripping trailing slashes is idempotent).  Counterexamples exist only among
strings with percent-escapes. -/
theorem normalize_url_idempotent_of_no_percent (u : String) (h : '%' ∉ u.toList) :
    normalize_url (normalize_url u) = normalize_url u := by
  have h₁ : normalize_url u = rstripSlash u := by
    show unquote (rstripSlash u) = rstripSlash u
    exact unquote_of_no_percent _ (fun hm => h (mem_rstripSlash hm))
  rw [h₁]
  show unquote (rstripSlash (rstripSlash u)) = rstripSlash u
  rw [rstripSlash_idem]
  exact unquote_of_no_percent _ (fun hm => h (mem_rstripSlash hm))

/-- Witness for the amended C3 theorem at the concrete input `"ab/"`. -/
theorem normalize_url_idempotent_witness :
    '%' ∉ "ab/".toList ∧ normalize_url (normalize_url "ab/") = normalize_url "ab/" :=
  ⟨by decide, normalize_url_idempotent_of_no_percent "ab/" (by decide)⟩

-- § Filtering and resource classification

/-- `CrawlerComparison.should_filter_url`: a URL is excluded iff it contains
the case-insensitive substring `_rsc=` (Next.js RSC prefetch URLs). -/
def should_filter_url (url : String) : Bool :=
  strContains (strLower url) "_rsc="

/-- `CrawlerComparison.categorize_resource_type`: the ordered if/elif chain
mapping a MIME string to a coarse resource category. -/
def categorize_resource_type (content_type : String) : String :=
  let ct := strLower content_type
  if strContains ct "text/html" then "html"
  else if ["image/jpeg", "image/jpg", "image/png", "image/gif", "image/webp",
      "image/svg"].any (fun img => strContains ct img) then "image"
  else if strContains ct "text/css" || strContains ct "stylesheet" then "css"
  else if strContains ct "javascript" || strContains ct "application/js" ||
      strContains ct "text/js" then "javascript"
  else if strContains ct "application/pdf" then "pdf"
  else if strContains ct "font" || strContains ct "woff" then "font"
  else if strContains ct "video" then "video"
  else if strContains ct "audio" then "audio"
  else if ["application/xml", "text/xml",
      "application/json"].any (fun doc => strContains ct doc) then "data"
  else "other"

/-- The ten categories `categorize_resource_type` can produce. -/
def allCategories : Finset String :=
  {"html", "image", "css", "javascript", "pdf", "font", "video", "audio",
   "data", "other"}

lemma categorize_mem_allCategories (ct : String) :
    categorize_resource_type ct ∈ allCategories := by
  unfold categorize_resource_type
  dsimp only
  split_ifs <;> decide

-- § Parsing of the two crawlers' exports

/-- One row of the ScreamingFrog `internal_all.csv` export (restricted to the
columns the comparison reads and uses downstream). -/
structure SFRow where
  address : String
  statusCode : String
  contentType : String
  title : String
  h1 : String
  canonical : String
  wordCount : String
  indexability : String
  crawlDepth : String
deriving DecidableEq

/-- Python `int(s) if s and s.isdigit() else 0`, as used for the numeric CSV
columns. -/
def parseNat (s : String) : ℕ :=
  if s ≠ "" ∧ s.toList.all (fun c => c.isDigit) then
    s.toList.foldl (fun acc c => 10 * acc + (c.toNat - 48)) 0
  else 0

/-- The per-URL info dict built by `parse_screamingfrog_internal`. -/
structure SFPageInfo where
  status : ℕ
  content_type : String
  title : String
  h1 : String
  canonical : String
  word_count : ℕ
  indexable : String
  depth : ℕ
deriving DecidableEq

/-- Insertion with Python-dict semantics: an existing key keeps its position
and receives the new value; a new key is appended. -/
def dictInsert {α : Type} (l : List (String × α)) (k : String) (v : α) :
    List (String × α) :=
  if l.any (fun p => p.1 == k) then
    l.map (fun p => if p.1 == k then (k, v) else p)
  else l ++ [(k, v)]

/-- `CrawlerComparison.parse_screamingfrog_internal`: builds the URL → info
dict, skipping rows with an empty Address and rows whose URL is filtered by
`should_filter_url`. -/
def parse_screamingfrog_internal (rows : List SFRow) : List (String × SFPageInfo) :=
  rows.foldl
    (fun urls row =>
      if row.address = "" then urls
      else if should_filter_url row.address then urls
      else dictInsert urls row.address
        { status := parseNat row.statusCode
          content_type := row.contentType
          title := row.title
          h1 := row.h1
          canonical := row.canonical
          word_count := parseNat row.wordCount
          indexable := row.indexability
          depth := parseNat row.crawlDepth })
    []

/-- One row of the ScreamingFrog `all_outlinks.csv` export. -/
structure SFLinkRow where
  source : String
  destination : String
  anchor : String
  altText : String
  type : String
  follow : String
  target : String
  rel : String
  pathType : String
  position : String
deriving DecidableEq

/-- One parsed ScreamingFrog outlink (the dict appended per source URL). -/
structure SFLink where
  «to» : String
  anchor : String
  type : String
  follow : Bool
  target : String
  rel : String
  path_type : String
  position : String
deriving DecidableEq

/-- Appending to a grouped association list (`defaultdict(list)` semantics). -/
def groupAppend {α : Type} (l : List (String × List α)) (k : String) (v : α) :
    List (String × List α) :=
  if l.any (fun p => p.1 == k) then
    l.map (fun p => if p.1 == k then (p.1, p.2 ++ [v]) else p)
  else l ++ [(k, [v])]

/-- `CrawlerComparison.parse_screamingfrog_outlinks`: groups outlinks by
source, skipping rows with an empty endpoint and rows where either endpoint
is filtered by `should_filter_url`. -/
def parse_screamingfrog_outlinks (rows : List SFLinkRow) :
    List (String × List SFLink) :=
  rows.foldl
    (fun outlinks row =>
      if row.source = "" ∨ row.destination = "" then outlinks
      else if should_filter_url row.source || should_filter_url row.destination then
        outlinks
      else groupAppend outlinks row.source
        { «to» := row.destination
          anchor := if row.anchor ≠ "" then row.anchor else row.altText
          type := row.type
          follow := strLower row.follow == "true"
          target := row.target
          rel := row.rel
          path_type := row.pathType
          position := row.position })
    []

/-- One BlueSnake page result (the JSON fields the comparison reads).  The
BlueSnake loader `load_bluesnake_data` applies NO URL filter. -/
structure BSResult where
  url : String
  status : ℕ
  contentType : String
  title : String
  h1 : String
  wordCount : ℕ
  indexable : String
  canonicalUrl : String
  depth : ℕ
deriving DecidableEq

-- § compare_urls

/-- Normalized `(url, category)` pairs for the ScreamingFrog side of
`compare_urls`. -/
def sfNormPairs (sf_urls : List (String × SFPageInfo)) : List (String × String) :=
  sf_urls.map (fun p => (normalize_url p.1, categorize_resource_type p.2.content_type))

/-- Normalized `(url, category)` pairs for the BlueSnake side of
`compare_urls`. -/
def bsNormPairs (bs_results : List BSResult) : List (String × String) :=
  bs_results.map (fun r => (normalize_url r.url, categorize_resource_type r.contentType))

/-- The per-category URL set (`sf_by_type` / `bs_by_type`). -/
def byType (pairs : List (String × String)) (t : String) : Finset String :=
  ((pairs.filter (fun p => p.2 == t)).map Prod.fst).toFinset

/-- The whole normalized URL set of one side (`sf_set` / `bs_set`). -/
def urlSet (pairs : List (String × String)) : Finset String :=
  (pairs.map Prod.fst).toFinset

/-- Output of `CrawlerComparison.compare_urls`: the returned counts plus the
two diff structures stored in `detailed_diff["url_diffs"]`. -/
structure UrlComparison where
  sf_total : ℕ
  bs_total : ℕ
  common : ℕ
  missing_in_bs : ℕ
  missing_in_bluesnake_by_type : String → Finset String
  only_in_bluesnake : Finset String

/-- `CrawlerComparison.compare_urls`.  The code's per-category loop runs over
the set of categories present on either side; every category produced by
`categorize_resource_type` lies in `allCategories` and a category present on
neither side contributes an empty difference, so summing over
`allCategories` gives the same total. -/
def compare_urls (sf_urls : List (String × SFPageInfo))
    (bs_results : List BSResult) : UrlComparison :=
  let sfP := sfNormPairs sf_urls
  let bsP := bsNormPairs bs_results
  { sf_total := (urlSet sfP).card
    bs_total := (urlSet bsP).card
    common := ((urlSet sfP) ∩ (urlSet bsP)).card
    missing_in_bs := ∑ t ∈ allCategories, ((byType sfP t) \ (byType bsP t)).card
    missing_in_bluesnake_by_type := fun t => (byType sfP t) \ (byType bsP t)
    only_in_bluesnake := (urlSet bsP) \ (urlSet sfP) }

-- Membership characterizations for the compare_urls sets.

lemma mem_byType {pairs : List (String × String)} {t u : String} :
    u ∈ byType pairs t ↔ (u, t) ∈ pairs := by
  unfold byType
  simp only [List.mem_toFinset, List.mem_map, List.mem_filter, beq_iff_eq]
  constructor
  · rintro ⟨⟨p₁, p₂⟩, ⟨hp, ht⟩, hu⟩
    dsimp at ht hu
    subst ht
    subst hu
    exact hp
  · intro hp
    exact ⟨(u, t), ⟨hp, rfl⟩, rfl⟩

lemma mem_urlSet {pairs : List (String × String)} {u : String} :
    u ∈ urlSet pairs ↔ ∃ t, (u, t) ∈ pairs := by
  unfold urlSet
  simp only [List.mem_toFinset, List.mem_map]
  constructor
  · rintro ⟨⟨p₁, p₂⟩, hp, hu⟩
    dsimp at hu
    subst hu
    exact ⟨p₂, hp⟩
  · rintro ⟨t, ht⟩
    exact ⟨(u, t), ht, rfl⟩

lemma sfNormPairs_snd_mem {sf_urls : List (String × SFPageInfo)}
    {p : String × String} (hp : p ∈ sfNormPairs sf_urls) : p.2 ∈ allCategories := by
  unfold sfNormPairs at hp
  obtain ⟨q, _, rfl⟩ := List.mem_map.mp hp
  exact categorize_mem_allCategories _

/-- Claim C1, counterexample: the BlueSnake loader applies no `_rsc=` filter,
so a candidate-side URL containing `_rsc=` shows up in the only-in-candidate
set of the URL diff (`url_diffs["only_in_bluesnake"]`), contradicting the
claim that such URLs appear in no diff output. -/
theorem rsc_url_in_diff_output :
    should_filter_url "https://x.com/?_rsc=abc123" = true ∧
    "https://x.com/?_rsc=abc123" ∈
      (compare_urls []
        [{ url := "https://x.com/?_rsc=abc123", status := 200,
           contentType := "text/html", title := "", h1 := "",
           wordCount := 0, indexable := "", canonicalUrl := "",
           depth := 0 }]).only_in_bluesnake := ⟨by decide, by decide⟩

/-- Claim C1, amended: the `_rsc=` filter is applied on the reference
(ScreamingFrog) side only.  A parsed reference page row whose URL is
filtered, and a parsed reference link row either of whose endpoints is
filtered, are dropped at parse time and therefore influence no diff output; in
particular `compare_urls` is unchanged by such a row.  Candidate-side
(BlueSnake) results are not filtered and can surface in the
only-in-candidate set. -/
theorem rsc_filtered_from_reference_side
    (prows₁ prows₂ : List SFRow) (prow : SFRow)
    (lrows₁ lrows₂ : List SFLinkRow) (lrow : SFLinkRow)
    (bs_results : List BSResult)
    (hp : should_filter_url prow.address = true)
    (hl : should_filter_url lrow.source = true ∨
      should_filter_url lrow.destination = true) :
    parse_screamingfrog_internal (prows₁ ++ prow :: prows₂) =
      parse_screamingfrog_internal (prows₁ ++ prows₂) ∧
    parse_screamingfrog_outlinks (lrows₁ ++ lrow :: lrows₂) =
      parse_screamingfrog_outlinks (lrows₁ ++ lrows₂) ∧
    compare_urls (parse_screamingfrog_internal (prows₁ ++ prow :: prows₂)) bs_results =
      compare_urls (parse_screamingfrog_internal (prows₁ ++ prows₂)) bs_results := by
  have hpage : parse_screamingfrog_internal (prows₁ ++ prow :: prows₂) =
      parse_screamingfrog_internal (prows₁ ++ prows₂) := by
    unfold parse_screamingfrog_internal
    rw [List.foldl_append, List.foldl_append, List.foldl_cons]
    congr 1
    simp [hp]
  have hlink : parse_screamingfrog_outlinks (lrows₁ ++ lrow :: lrows₂) =
      parse_screamingfrog_outlinks (lrows₁ ++ lrows₂) := by
    unfold parse_screamingfrog_outlinks
    rw [List.foldl_append, List.foldl_append, List.foldl_cons]
    congr 1
    rcases hl with h | h <;> simp [h]
  exact ⟨hpage, hlink, by rw [hpage]⟩

/-- A ScreamingFrog page row whose URL contains `_rsc=`. -/
def rscPageRow : SFRow :=
  { address := "https://x.com/?_rsc=a", statusCode := "200",
    contentType := "text/html", title := "", h1 := "", canonical := "",
    wordCount := "0", indexability := "", crawlDepth := "0" }

/-- A ScreamingFrog link row whose source contains `_rsc=`. -/
def rscLinkRow : SFLinkRow :=
  { source := "https://x.com/?_rsc=a", destination := "https://x.com/b",
    anchor := "", altText := "", type := "hyperlink", follow := "true",
    target := "", rel := "", pathType := "", position := "" }

/-- Witness for the amended C1 theorem: a filtered page row and a filtered
link row, dropped from singleton row lists. -/
theorem rsc_filtered_from_reference_side_witness :
    parse_screamingfrog_internal [rscPageRow] = [] ∧
    parse_screamingfrog_outlinks [rscLinkRow] = [] := by
  have h := rsc_filtered_from_reference_side [] [] rscPageRow [] [] rscLinkRow []
    (by decide) (Or.inl (by decide))
  exact ⟨h.1.trans rfl, h.2.1.trans rfl⟩

/-- Claim C4, concrete page infos used by the counterexample and witness. -/
def sfHtmlInfo : SFPageInfo :=
  { status := 200, content_type := "text/html", title := "", h1 := "",
    canonical := "", word_count := 0, indexable := "", depth := 0 }

/-- A candidate-side record for the C4 counterexample: same URL as the
reference page but classified `css` instead of `html`. -/
def bsCssResult : BSResult :=
  { url := "a", status := 200, contentType := "text/css", title := "", h1 := "",
    wordCount := 0, indexable := "", canonicalUrl := "", depth := 0 }

/-- Claim C4, counterexample: coverage conservation fails when the two sides
classify a common URL differently.  URL `"a"` is `html` on the reference
side and `css` on the candidate side: it is common (count 1) AND counted as
missing in the `html` category (count 1), so `1 ≠ 1 + 1`. -/
theorem coverage_conservation_counterexample :
    ¬ ((compare_urls [("a", sfHtmlInfo)] [bsCssResult]).sf_total =
       (compare_urls [("a", sfHtmlInfo)] [bsCssResult]).missing_in_bs +
       (compare_urls [("a", sfHtmlInfo)] [bsCssResult]).common) := by decide

/-- Claim C4, amended: coverage conservation `sf_total = missing_in_bs +
common` holds provided categories are assigned consistently: any two
reference pages with the same normalized URL classify alike, and a reference
page and a candidate page with the same normalized URL classify alike. -/
theorem coverage_conservation
    (sf_urls : List (String × SFPageInfo)) (bs_results : List BSResult)
    (h₁ : ∀ p ∈ sfNormPairs sf_urls, ∀ q ∈ sfNormPairs sf_urls,
      p.1 = q.1 → p.2 = q.2)
    (h₂ : ∀ p ∈ sfNormPairs sf_urls, ∀ q ∈ bsNormPairs bs_results,
      p.1 = q.1 → p.2 = q.2) :
    (compare_urls sf_urls bs_results).sf_total =
      (compare_urls sf_urls bs_results).missing_in_bs +
      (compare_urls sf_urls bs_results).common := by
  set A := sfNormPairs sf_urls with hA
  set B := bsNormPairs bs_results with hB
  show (urlSet A).card =
    (∑ t ∈ allCategories, ((byType A t) \ (byType B t)).card) +
    ((urlSet A) ∩ (urlSet B)).card
  have step1 : ∀ t, (byType A t) \ (byType B t) = (byType A t) \ (urlSet B) := by
    intro t
    ext u
    simp only [Finset.mem_sdiff, mem_byType, mem_urlSet]
    constructor
    · rintro ⟨hA', hnB⟩
      refine ⟨hA', ?_⟩
      rintro ⟨s, hs⟩
      have hts : t = s := h₂ (u, t) hA' (u, s) hs rfl
      rw [← hts] at hs
      exact hnB hs
    · rintro ⟨hA', hnB⟩
      exact ⟨hA', fun hb => hnB ⟨t, hb⟩⟩
  have step2 : (allCategories.biUnion fun t => (byType A t) \ (urlSet B)) =
      (urlSet A) \ (urlSet B) := by
    ext u
    simp only [Finset.mem_biUnion, Finset.mem_sdiff, mem_byType, mem_urlSet]
    constructor
    · rintro ⟨t, _, hA', hnB⟩
      exact ⟨⟨t, hA'⟩, hnB⟩
    · rintro ⟨⟨t, hA'⟩, hnB⟩
      exact ⟨t, sfNormPairs_snd_mem hA', hA', hnB⟩
  have hdisj : ∀ t ∈ allCategories, ∀ t' ∈ allCategories, t ≠ t' →
      Disjoint ((byType A t) \ (urlSet B)) ((byType A t') \ (urlSet B)) := by
    intro t _ t' _ hne
    rw [Finset.disjoint_left]
    intro u hu hu'
    simp only [Finset.mem_sdiff, mem_byType] at hu hu'
    exact hne (h₁ (u, t) hu.1 (u, t') hu'.1 rfl)
  calc (urlSet A).card
      = ((urlSet A) \ (urlSet B)).card + ((urlSet A) ∩ (urlSet B)).card :=
        (Finset.card_sdiff_add_card_inter _ _).symm
    _ = (allCategories.biUnion fun t => (byType A t) \ (urlSet B)).card +
        ((urlSet A) ∩ (urlSet B)).card := by rw [step2]
    _ = (∑ t ∈ allCategories, ((byType A t) \ (urlSet B)).card) +
        ((urlSet A) ∩ (urlSet B)).card := by rw [Finset.card_biUnion hdisj]
    _ = (∑ t ∈ allCategories, ((byType A t) \ (byType B t)).card) +
        ((urlSet A) ∩ (urlSet B)).card := by
        congr 1
        exact Finset.sum_congr rfl (fun t _ => by rw [step1])

/-- A candidate-side record for the C4 witness (consistent classification). -/
def bsHtmlResult : BSResult :=
  { url := "b", status := 200, contentType := "text/html", title := "", h1 := "",
    wordCount := 0, indexable := "", canonicalUrl := "", depth := 0 }

/-- Witness for the amended C4 theorem at concrete (consistently classified)
datasets. -/
theorem coverage_conservation_witness :
    (compare_urls [("a/", sfHtmlInfo)] [bsHtmlResult]).sf_total =
      (compare_urls [("a/", sfHtmlInfo)] [bsHtmlResult]).missing_in_bs +
      (compare_urls [("a/", sfHtmlInfo)] [bsHtmlResult]).common :=
  coverage_conservation _ _ (by decide) (by decide)

-- § Python rounding on exact rationals

/-- Python's `round` to an integer: nearest, ties to even. -/
def pyRound (x : ℚ) : ℤ :=
  if x - ⌊x⌋ < 1/2 then ⌊x⌋
  else if 1/2 < x - ⌊x⌋ then ⌊x⌋ + 1
  else if 2 ∣ ⌊x⌋ then ⌊x⌋ else ⌊x⌋ + 1

/-- Python `round(x, 1)`. -/
def round1 (x : ℚ) : ℚ := (pyRound (x * 10) : ℚ) / 10

/-- Python `round(x, 4)`. -/
def round4 (x : ℚ) : ℚ := (pyRound (x * 10000) : ℚ) / 10000

lemma pyRound_intCast (n : ℤ) : pyRound (n : ℚ) = n := by
  unfold pyRound
  rw [Int.floor_intCast, sub_self]
  norm_num

-- § compare_page_attributes: the word-count branch

/-- The word-count difference percentage
`abs(sf_wc - bs_wc) / max(sf_wc, bs_wc, 1) * 100`. -/
def word_count_pct (sf_wc bs_wc : ℕ) : ℚ :=
  |(sf_wc : ℚ) - (bs_wc : ℚ)| / ((max sf_wc (max bs_wc 1) : ℕ) : ℚ) * 100

/-- The word-count branch of `compare_page_attributes` for one URL present on
both sides: the recorded diff entry `(sf, bs, diff_pct)`, or `none` when no
diff is recorded. -/
def word_count_diff_entry (sf_wc bs_wc : ℕ) : Option (ℕ × ℕ × ℚ) :=
  if sf_wc > 0 ∨ bs_wc > 0 then
    if word_count_pct sf_wc bs_wc > 10 then
      some (sf_wc, bs_wc, round1 (word_count_pct sf_wc bs_wc))
    else none
  else none

/-- Claim C5: a word-count diff is recorded iff the percentage difference
exceeds 10; word counts 100 vs 80 are recorded with `diff_pct = 20.0`, and
100 vs 92 (pct 8) are not recorded. -/
theorem word_count_diff_iff :
    (∀ sf_wc bs_wc : ℕ,
      (word_count_diff_entry sf_wc bs_wc).isSome = true ↔
        word_count_pct sf_wc bs_wc > 10) ∧
    word_count_diff_entry 100 80 = some (100, 80, 20) ∧
    word_count_diff_entry 100 92 = none := by
  refine ⟨fun a b => ?_, ?_, ?_⟩
  · unfold word_count_diff_entry
    by_cases h : a > 0 ∨ b > 0
    · rw [if_pos h]
      by_cases hp : word_count_pct a b > 10
      · rw [if_pos hp]
        simpa using hp
      · rw [if_neg hp]
        simpa using hp
    · rw [if_neg h]
      push_neg at h
      have ha : a = 0 := Nat.le_zero.mp h.1
      have hb : b = 0 := Nat.le_zero.mp h.2
      subst ha
      subst hb
      have hz : word_count_pct 0 0 = 0 := by unfold word_count_pct; norm_num
      simp [hz]
  · have hpct : word_count_pct 100 80 = 20 := by
      unfold word_count_pct
      norm_num
    unfold word_count_diff_entry
    rw [if_pos (Or.inl (by norm_num)), hpct,
      if_pos (by norm_num : (20:ℚ) > 10)]
    have hr : round1 (20:ℚ) = 20 := by
      unfold round1
      rw [show (20:ℚ) * 10 = ((200:ℤ):ℚ) by norm_num, pyRound_intCast]
      norm_num
    rw [hr]
  · have hpct : word_count_pct 100 92 = 8 := by
      unfold word_count_pct
      norm_num
    unfold word_count_diff_entry
    rw [if_pos (Or.inl (by norm_num)), hpct,
      if_neg (by norm_num : ¬((8:ℚ) > 10))]

-- § compare_link_attributes: per-(source,dest) attribute comparison

/-- One BlueSnake outlink as loaded by `load_bluesnake_links`. -/
structure BSLink where
  url : String
  anchor : String
  linkType : String
  follow : Bool
  target : String
  rel : String
  pathType : String
  position : String
deriving DecidableEq

/-- Which attributes of one common (source, destination) link pair receive a
diff entry in `compare_link_attributes`. -/
structure LinkDiffFlags where
  follow : Bool
  target : Bool
  rel : Bool
  path_type : Bool
  position : Bool
  link_type : Bool
deriving DecidableEq

/-- The body of `compare_link_attributes`' inner loop for one destination
present on both sides: the normalizations and comparisons applied to each
link attribute. -/
def compare_link_pair (sf_link : SFLink) (bs_link : BSLink) : LinkDiffFlags :=
  let sf_type := strLower sf_link.type
  let sf_pos := strLower sf_link.position
  let bs_pos := strLower bs_link.position
  let sf_pos_norm :=
    if (sf_type = "javascript" ∨ sf_type = "css" ∨ sf_type = "image") ∧
        (sf_pos = "head" ∨ sf_pos = "content") then "unknown" else sf_pos
  let bs_type := strLower bs_link.linkType
  let sf_type_norm :=
    if sf_type = "hyperlink" then "anchor"
    else if sf_type = "javascript" then "script"
    else if sf_type = "css" then "stylesheet"
    else sf_type
  { follow := sf_link.follow != bs_link.follow
    target := sf_link.target != bs_link.target
    rel := sf_link.rel != bs_link.rel
    path_type := sf_link.path_type != bs_link.pathType
    position := sf_pos_norm != bs_pos
    link_type := sf_type_norm != bs_type }

/-- The fixed link-type vocabulary mapping the specification describes for
side A (`hyperlink`→`anchor`, `javascript`→`script`, `css`→`stylesheet`). -/
def linkTypeVocabMap (t : String) : String :=
  if t = "hyperlink" then "anchor"
  else if t = "javascript" then "script"
  else if t = "css" then "stylesheet"
  else t

/-- Claim C8: link types are compared after mapping side A's vocabulary; a
link-type diff is recorded iff the mapped (lowercased) A type differs from
the (lowercased) B type, and in particular `hyperlink` vs `anchor` produces
no link-type diff. -/
theorem link_type_normalized_comparison :
    (∀ (sf_link : SFLink) (bs_link : BSLink),
      (compare_link_pair sf_link bs_link).link_type = false ↔
        linkTypeVocabMap (strLower sf_link.type) = strLower bs_link.linkType) ∧
    (∀ (sf_link : SFLink) (bs_link : BSLink),
      sf_link.type = "hyperlink" → bs_link.linkType = "anchor" →
      (compare_link_pair sf_link bs_link).link_type = false) := by
  have main : ∀ (sf_link : SFLink) (bs_link : BSLink),
      (compare_link_pair sf_link bs_link).link_type = false ↔
        linkTypeVocabMap (strLower sf_link.type) = strLower bs_link.linkType := by
    intro sf_link bs_link
    simp [compare_link_pair, linkTypeVocabMap]
  refine ⟨main, fun sf_link bs_link h1 h2 => (main sf_link bs_link).mpr ?_⟩
  rw [h1, h2]
  decide

/-- A reference-side link typed `hyperlink` (C8 witness). -/
def sfHyperlinkEx : SFLink :=
  { «to» := "https://x.com/b", anchor := "", type := "hyperlink", follow := true,
    target := "", rel := "", path_type := "", position := "content" }

/-- A candidate-side link typed `anchor` (C8 witness). -/
def bsAnchorEx : BSLink :=
  { url := "https://x.com/b", anchor := "", linkType := "anchor", follow := true,
    target := "", rel := "", pathType := "", position := "content" }

/-- Witness for C8: `hyperlink` vs `anchor` yields no link-type diff. -/
theorem link_type_normalized_comparison_witness :
    (compare_link_pair sfHyperlinkEx bsAnchorEx).link_type = false :=
  link_type_normalized_comparison.2 sfHyperlinkEx bsAnchorEx (by rfl) (by rfl)

-- § detailed_analysis.py: per-URL correlation averages

/-- One crawl with its metadata, as in `detailed_analysis.py`'s `crawl_data`. -/
structure CrawlMeta where
  id : ℕ
  urls : List String
  pages_crawled : ℕ
  duration_ms : ℕ
deriving DecidableEq

/-- The crawls whose URL list contains `url` (`present`). -/
def presentCrawls (crawl_data : List CrawlMeta) (url : String) : List CrawlMeta :=
  crawl_data.filter (fun c => decide (url ∈ c.urls))

/-- The crawls whose URL list does not contain `url` (`missing`). -/
def missingCrawls (crawl_data : List CrawlMeta) (url : String) : List CrawlMeta :=
  crawl_data.filter (fun c => decide (url ∉ c.urls))

/-- `avg_duration_present`: guarded average, `0` when no crawl contains the
URL. -/
def avg_duration_present (crawl_data : List CrawlMeta) (url : String) : ℚ :=
  let present := presentCrawls crawl_data url
  if present ≠ [] then
    (((present.map (fun c => c.duration_ms)).sum : ℕ) : ℚ) / (present.length : ℚ)
  else 0

/-- `avg_duration_missing`. -/
def avg_duration_missing (crawl_data : List CrawlMeta) (url : String) : ℚ :=
  let missing := missingCrawls crawl_data url
  if missing ≠ [] then
    (((missing.map (fun c => c.duration_ms)).sum : ℕ) : ℚ) / (missing.length : ℚ)
  else 0

/-- `avg_pages_present`. -/
def avg_pages_present (crawl_data : List CrawlMeta) (url : String) : ℚ :=
  let present := presentCrawls crawl_data url
  if present ≠ [] then
    (((present.map (fun c => c.pages_crawled)).sum : ℕ) : ℚ) / (present.length : ℚ)
  else 0

/-- `avg_pages_missing`. -/
def avg_pages_missing (crawl_data : List CrawlMeta) (url : String) : ℚ :=
  let missing := missingCrawls crawl_data url
  if missing ≠ [] then
    (((missing.map (fun c => c.pages_crawled)).sum : ℕ) : ℚ) / (missing.length : ℚ)
  else 0

/-- Claim C10: the correlation averages never divide by zero — when a URL is
present in no crawl (resp. absent from none) the corresponding averages are
reported as `0` instead of raising. -/
theorem correlation_averages_guarded
    (crawl_data : List CrawlMeta) (url : String) :
    ((∀ c ∈ crawl_data, url ∉ c.urls) →
      avg_duration_present crawl_data url = 0 ∧
      avg_pages_present crawl_data url = 0) ∧
    ((∀ c ∈ crawl_data, url ∈ c.urls) →
      avg_duration_missing crawl_data url = 0 ∧
      avg_pages_missing crawl_data url = 0) := by
  constructor
  · intro h
    have hfil : presentCrawls crawl_data url = [] := by
      apply List.filter_eq_nil_iff.mpr
      intro c hc
      simpa using h c hc
    constructor
    · unfold avg_duration_present
      rw [hfil]
      simp
    · unfold avg_pages_present
      rw [hfil]
      simp
  · intro h
    have hfil : missingCrawls crawl_data url = [] := by
      apply List.filter_eq_nil_iff.mpr
      intro c hc
      simpa using h c hc
    constructor
    · unfold avg_duration_missing
      rw [hfil]
      simp
    · unfold avg_pages_missing
      rw [hfil]
      simp

/-- Concrete crawl list for the C10 witness. -/
def exCrawlMeta : List CrawlMeta :=
  [{ id := 167, urls := ["https://agentberlin.ai/pricing"], pages_crawled := 17,
     duration_ms := 2330 }]

/-- Witness for C10: a URL present in no crawl gets both present-averages 0. -/
theorem correlation_averages_guarded_witness :
    avg_duration_present exCrawlMeta "https://agentberlin.ai/blog" = 0 ∧
    avg_pages_present exCrawlMeta "https://agentberlin.ai/blog" = 0 :=
  (correlation_averages_guarded exCrawlMeta "https://agentberlin.ai/blog").1
    (by decide)

-- § analyze_crawls.py: URL stability across snapshots

/-- All URLs seen in at least one snapshot (`all_urls`), deduplicated.  Each
snapshot is a `(crawl_id, url list)` pair. -/
def allUrlsList (snapshots : List (ℕ × List String)) : List String :=
  ((snapshots.map Prod.snd).flatten).dedup

/-- The crawl ids whose URL list contains `url` (`url_appearances[url]`), in
snapshot order. -/
def presentRunIds (snapshots : List (ℕ × List String)) (url : String) : List ℕ :=
  (snapshots.filter (fun s => decide (url ∈ s.2))).map Prod.fst

/-- The appearance count of a URL (`len(appearances)`). -/
def appearances (snapshots : List (ℕ × List String)) (url : String) : ℕ :=
  (presentRunIds snapshots url).length

/-- The appearance rate of a URL as a fraction of the number of snapshots
(the code renders `rate * 100` as a percent string). -/
def appearance_rate (snapshots : List (ℕ × List String)) (url : String) : ℚ :=
  (appearances snapshots url : ℚ) / (snapshots.length : ℚ)

/-- One record of the `unstable_urls` dict. -/
structure UnstableEntry where
  url : String
  appearances : ℕ
  rate_pct : ℚ
  crawl_ids : List ℕ
deriving DecidableEq

/-- The `unstable_urls` dict of `analyze_crawls.py`: every URL seen somewhere
that does NOT appear in all crawls, with its appearance count, its rate (as
the percentage value the code formats) and the crawl ids containing it. -/
def unstable_urls (snapshots : List (ℕ × List String)) : List UnstableEntry :=
  (allUrlsList snapshots).filterMap (fun url =>
    if appearances snapshots url < snapshots.length then
      some { url := url
             appearances := appearances snapshots url
             rate_pct := (appearances snapshots url : ℚ) /
               (snapshots.length : ℚ) * 100
             crawl_ids := presentRunIds snapshots url }
    else none)

/-- Claim C7: for every URL appearing in at least one snapshot, the
appearance count is the number of snapshots containing it, is between 1 and
the number of runs, the rate is `appearances / totalRuns`, and the URL is
left out of `unstable_urls` (stable) iff it appears in every run; a URL
appearing in strictly fewer runs is recorded in `unstable_urls` with its
rate and the ids of the runs containing it. -/
theorem stability_classification
    (snapshots : List (ℕ × List String)) (url : String)
    (h : url ∈ allUrlsList snapshots) :
    appearances snapshots url =
      (snapshots.filter (fun s => decide (url ∈ s.2))).length ∧
    1 ≤ appearances snapshots url ∧
    appearances snapshots url ≤ snapshots.length ∧
    appearance_rate snapshots url =
      (appearances snapshots url : ℚ) / (snapshots.length : ℚ) ∧
    ((url ∉ (unstable_urls snapshots).map UnstableEntry.url) ↔
      appearances snapshots url = snapshots.length) ∧
    (appearances snapshots url < snapshots.length →
      { url := url
        appearances := appearances snapshots url
        rate_pct := appearance_rate snapshots url * 100
        crawl_ids := presentRunIds snapshots url } ∈ unstable_urls snapshots) := by
  have hcount : appearances snapshots url =
      (snapshots.filter (fun s => decide (url ∈ s.2))).length := by
    unfold appearances presentRunIds
    rw [List.length_map]
  have hle : appearances snapshots url ≤ snapshots.length := by
    rw [hcount]
    exact List.length_filter_le _ _
  have hpos : 1 ≤ appearances snapshots url := by
    obtain ⟨l, hl, hu⟩ := List.mem_flatten.mp (List.mem_dedup.mp h)
    obtain ⟨s, hs, rfl⟩ := List.mem_map.mp hl
    have hsf : s ∈ snapshots.filter (fun s => decide (url ∈ s.2)) :=
      List.mem_filter.mpr ⟨hs, by simpa using hu⟩
    rw [hcount]
    exact List.length_pos.mpr (List.ne_nil_of_mem hsf)
  have hmem : appearances snapshots url < snapshots.length →
      { url := url
        appearances := appearances snapshots url
        rate_pct := appearance_rate snapshots url * 100
        crawl_ids := presentRunIds snapshots url } ∈ unstable_urls snapshots := by
    intro hlt
    apply List.mem_filterMap.mpr
    exact ⟨url, h, by rw [if_pos hlt]; rfl⟩
  refine ⟨hcount, hpos, hle, rfl, ⟨?_, ?_⟩, hmem⟩
  · intro hnotin
    by_contra hne
    exact hnotin (List.mem_map_of_mem UnstableEntry.url
      (hmem (lt_of_le_of_ne hle hne)))
  · intro heq hin
    obtain ⟨entry, hentry, hurl⟩ := List.mem_map.mp hin
    obtain ⟨u', hu', he⟩ := List.mem_filterMap.mp hentry
    by_cases hc : appearances snapshots u' < snapshots.length
    · rw [if_pos hc] at he
      have hproj := congrArg UnstableEntry.url (Option.some.inj he)
      have hu'url : u' = url := hproj.trans hurl
      rw [hu'url] at hc
      omega
    · rw [if_neg hc] at he
      exact Option.noConfusion he

/-- Five snapshots; URL `/x` is present in four of them (C7 witness data). -/
def exSnapshots : List (ℕ × List String) :=
  [(5, ["/x", "/y"]), (4, ["/x", "/y"]), (3, ["/x", "/y"]), (2, ["/y"]),
   (1, ["/x", "/y"])]

/-- Witness for C7: on five snapshots with `/x` present in four,
`appearances = 4`, `rate = 4/5 = 0.8`, and `/x` is classified unstable. -/
theorem stability_classification_witness :
    "/x" ∈ allUrlsList exSnapshots ∧
    appearances exSnapshots "/x" = 4 ∧
    appearance_rate exSnapshots "/x" = 4/5 ∧
    "/x" ∈ (unstable_urls exSnapshots).map UnstableEntry.url := by
  have h := stability_classification exSnapshots "/x" (by decide)
  refine ⟨by decide, by decide, ?_, ?_⟩
  · have ha : appearances exSnapshots "/x" = 4 := by decide
    have hl : exSnapshots.length = 5 := by decide
    unfold appearance_rate
    rw [ha, hl]
    norm_num
  · exact List.mem_map_of_mem UnstableEntry.url (h.2.2.2.2.2 (by decide))

-- § normalize_text and tokenize

/-- The apostrophe character. -/
def apostrophe : Char := Char.ofNat 39

/-- The characterwise effect of `normalize_text`'s replacement table (curly
quotes, dashes, ellipsis, nbsp, soft hyphen, tab/cr/lf).  The sequential
whole-string `str.replace` calls of the code are equivalent to one
characterwise pass because no replacement target contains another
replacement's source character. -/
def replaceChar (c : Char) : List Char :=
  if c = '\u2018' ∨ c = '\u2019' then [apostrophe]
  else if c = '\u201c' ∨ c = '\u201d' then ['"']
  else if c = '\u2013' ∨ c = '\u2014' then ['-']
  else if c = '\u2026' then ['.', '.', '.']
  else if c = '\u00a0' then [' ']
  else if c = '\u00ad' then []
  else if c = '\t' ∨ c = '\r' ∨ c = '\n' then [' ']
  else [c]

/-- Whitespace for the `\s+` collapse step. -/
def isSpaceChar (c : Char) : Bool :=
  c == ' ' || c == '\t' || c == '\n' || c == '\r' || c == '\x0b' || c == '\x0c'

/-- Collapse every whitespace run to a single space (`re.sub(r"\s+", " ")`);
the flag records whether the previous character was whitespace. -/
def collapseAux : List Char → Bool → List Char
  | [], _ => []
  | c :: rest, prevSpace =>
    if isSpaceChar c then
      if prevSpace then collapseAux rest true
      else ' ' :: collapseAux rest true
    else c :: collapseAux rest false

/-- Python `str.strip()` on a character list. -/
def stripList (l : List Char) : List Char :=
  ((l.dropWhile isSpaceChar).reverse.dropWhile isSpaceChar).reverse

/-- `CrawlerComparison.normalize_text`: lowercase, apply the replacement
table, collapse whitespace, strip.  The initial Unicode NFC normalization
step is not modeled (it is the identity on the ASCII fragment this
embedding is faithful on, as is `Char.toLower`). -/
def normalize_text (text : String) : String :=
  if text = "" then ""
  else String.mk
    (stripList (collapseAux ((text.toList.map Char.toLower).flatMap replaceChar) false))

/-- Word constituents of the `\w` class (ASCII fragment). -/
def isWordChar (c : Char) : Bool := c.isAlphanum || c == '_'

/-- Characters allowed inside a token by the `\b[\w'-]+\b` regex. -/
def isTokChar (c : Char) : Bool := isWordChar c || c == apostrophe || c == '-'

/-- Maximal runs of token characters, in order (the accumulator holds the
current run reversed). -/
def tokenRunsAux : List Char → List Char → List (List Char)
  | [], cur => if cur.isEmpty then [] else [cur.reverse]
  | c :: rest, cur =>
    if isTokChar c then tokenRunsAux rest (c :: cur)
    else if cur.isEmpty then tokenRunsAux rest []
    else cur.reverse :: tokenRunsAux rest []

/-- The part of a `[\w'-]` run the regex `\b[\w'-]+\b` actually matches: from
its first word character to its last word character (the word-boundary
conditions); `none` when the run has no word character. -/
def trimToken (run : List Char) : Option String :=
  let t := ((run.dropWhile (fun c => !isWordChar c)).reverse.dropWhile
    (fun c => !isWordChar c)).reverse
  if t.isEmpty then none else some (String.mk t)

/-- `CrawlerComparison.tokenize`: `re.findall(r"\b[\w'-]+\b")` followed by
the code's filter dropping empty tokens and the singletons `'` and `-`
(which the boundary conditions already exclude). -/
def tokenize (text : String) : List String :=
  if text = "" then []
  else ((tokenRunsAux text.toList []).filterMap trimToken).filter
    (fun t => t.length > 0 && t != String.mk [apostrophe] && t != "-")

/-- The token set of a raw text after normalization
(`set(self.tokenize(norm))`). -/
def tokensOf (text : String) : Finset String :=
  (tokenize (normalize_text text)).toFinset

-- § The sequence-ratio model (difflib.SequenceMatcher.ratio)

/-- Length of the common prefix of two character lists. -/
def commonPrefixLen : List Char → List Char → ℕ
  | [], _ => 0
  | _ :: _, [] => 0
  | a :: as, b :: bs => if a = b then commonPrefixLen as bs + 1 else 0

lemma commonPrefixLen_le (a b : List Char) :
    commonPrefixLen a b ≤ a.length ∧ commonPrefixLen a b ≤ b.length := by
  induction a generalizing b with
  | nil => simp [commonPrefixLen]
  | cons x xs ih =>
    cases b with
    | nil => simp [commonPrefixLen]
    | cons y ys =>
      by_cases h : x = y
      · have := ih ys
        simp only [commonPrefixLen, if_pos h, List.length_cons]
        omega
      · simp [commonPrefixLen, h]

lemma commonPrefixLen_self (a : List Char) : commonPrefixLen a a = a.length := by
  induction a with
  | nil => rfl
  | cons x xs ih => simp [commonPrefixLen, ih]

/-- One step of the longest-match search: candidate block starting at
`(i, j)` with the length of the common prefix of the suffixes; a strictly
longer block replaces the current best (so the earliest maximal block is
kept). -/
def lmStep (a b : List Char) (i : ℕ) (best : ℕ × ℕ × ℕ) (j : ℕ) : ℕ × ℕ × ℕ :=
  if commonPrefixLen (a.drop i) (b.drop j) > best.2.2 then
    (i, j, commonPrefixLen (a.drop i) (b.drop j))
  else best

/-- The longest matching block `(i, j, size)` between `a` and `b`, earliest
in `a` then in `b` — the block `difflib.SequenceMatcher.find_longest_match`
produces.  The `autojunk` popularity heuristic is not modeled; it can select
a smaller block on long inputs but leaves every property proved below
intact (in particular identical sequences still match fully, because
`find_longest_match` extends any block over equal non-junk characters and
popular elements are never junk). -/
def longestMatch (a b : List Char) : ℕ × ℕ × ℕ :=
  (List.range a.length).foldl
    (fun best i => (List.range b.length).foldl (lmStep a b i) best) (0, 0, 0)

lemma foldl_preserve {α β : Type} (P : β → Prop) (f : β → α → β) (l : List α)
    (init : β) (h0 : P init) (hstep : ∀ acc x, x ∈ l → P acc → P (f acc x)) :
    P (l.foldl f init) := by
  induction l generalizing init with
  | nil => exact h0
  | cons x xs ih =>
    exact ih (f init x) (hstep init x (List.mem_cons_self ..) h0)
      (fun acc y hy => hstep acc y (List.mem_cons_of_mem _ hy))

/-- The block returned by `longestMatch` lies inside both lists. -/
lemma longestMatch_inRange (a b : List Char) :
    (longestMatch a b).1 + (longestMatch a b).2.2 ≤ a.length ∧
    (longestMatch a b).2.1 + (longestMatch a b).2.2 ≤ b.length := by
  unfold longestMatch
  apply foldl_preserve
    (P := fun best : ℕ × ℕ × ℕ =>
      best.1 + best.2.2 ≤ a.length ∧ best.2.1 + best.2.2 ≤ b.length)
  · simp
  · intro acc i hi hacc
    apply foldl_preserve
      (P := fun best : ℕ × ℕ × ℕ =>
        best.1 + best.2.2 ≤ a.length ∧ best.2.1 + best.2.2 ≤ b.length)
    · exact hacc
    · intro acc' j hj hacc'
      unfold lmStep
      split
      · have hk := commonPrefixLen_le (a.drop i) (b.drop j)
        rw [List.length_drop, List.length_drop] at hk
        have hi' := List.mem_range.mp hi
        have hj' := List.mem_range.mp hj
        constructor <;> dsimp <;> omega
      · exact hacc'

lemma lmStep_foldl_keep (a b : List Char) (i : ℕ) (v : ℕ × ℕ × ℕ)
    (hv : a.length ≤ v.2.2) (l : List ℕ) : l.foldl (lmStep a b i) v = v := by
  induction l with
  | nil => rfl
  | cons j js ih =>
    rw [List.foldl_cons]
    have hk := (commonPrefixLen_le (a.drop i) (b.drop j)).1
    rw [List.length_drop] at hk
    unfold lmStep
    rw [if_neg (by omega)]
    exact ih

lemma outer_foldl_keep (a b : List Char) (js : List ℕ) (v : ℕ × ℕ × ℕ)
    (hv : a.length ≤ v.2.2) (l : List ℕ) :
    l.foldl (fun best i => js.foldl (lmStep a b i) best) v = v := by
  induction l with
  | nil => rfl
  | cons i is ih =>
    rw [List.foldl_cons, lmStep_foldl_keep a b i v hv js]
    exact ih

/-- On an identical nonempty pair the longest match is the whole list. -/
lemma longestMatch_self (a : List Char) (ha : a ≠ []) :
    longestMatch a a = (0, 0, a.length) := by
  obtain ⟨n, hn⟩ : ∃ n, a.length = n + 1 := by
    cases a with
    | nil => exact absurd rfl ha
    | cons x xs => exact ⟨xs.length, rfl⟩
  have hpos : 0 < a.length := by omega
  have hrange : List.range a.length = 0 :: (List.range n).map Nat.succ := by
    rw [hn, List.range_succ_eq_map]
  unfold longestMatch
  rw [hrange, List.foldl_cons, List.foldl_cons]
  have h0 : lmStep a a 0 (0, 0, 0) 0 = (0, 0, a.length) := by
    simp [lmStep, commonPrefixLen_self, hpos]
  rw [h0, lmStep_foldl_keep a a 0 (0, 0, a.length) (le_refl _) _]
  exact outer_foldl_keep a a _ (0, 0, a.length) (le_refl _) _

/-- The total size of the Ratcliff/Obershelp matching blocks: the longest
matching block plus, recursively, the matches to its left and to its right
(`get_matching_blocks`). -/
def matchedTotal (a b : List Char) : ℕ :=
  if (longestMatch a b).2.2 = 0 then 0
  else
    matchedTotal (a.take (longestMatch a b).1) (b.take (longestMatch a b).2.1) +
      (longestMatch a b).2.2 +
      matchedTotal (a.drop ((longestMatch a b).1 + (longestMatch a b).2.2))
        (b.drop ((longestMatch a b).2.1 + (longestMatch a b).2.2))
termination_by a.length
decreasing_by
  · have h1 := longestMatch_inRange a b
    simp only [List.length_take]
    omega
  · have h1 := longestMatch_inRange a b
    simp only [List.length_drop]
    omega

lemma matchedTotal_le_aux :
    ∀ (n : ℕ) (a b : List Char), a.length ≤ n →
      matchedTotal a b ≤ min a.length b.length := by
  intro n
  induction n with
  | zero =>
    intro a b ha
    have h1 := longestMatch_inRange a b
    unfold matchedTotal
    rw [if_pos (by omega : (longestMatch a b).2.2 = 0)]
    omega
  | succ m ih =>
    intro a b ha
    have h1 := longestMatch_inRange a b
    unfold matchedTotal
    by_cases hk : (longestMatch a b).2.2 = 0
    · rw [if_pos hk]
      omega
    · rw [if_neg hk]
      have hb1 := ih (a.take (longestMatch a b).1) (b.take (longestMatch a b).2.1)
        (by simp only [List.length_take]; omega)
      have hb2 := ih (a.drop ((longestMatch a b).1 + (longestMatch a b).2.2))
        (b.drop ((longestMatch a b).2.1 + (longestMatch a b).2.2))
        (by simp only [List.length_drop]; omega)
      simp only [List.length_take, List.length_drop] at hb1 hb2
      omega

lemma matchedTotal_le (a b : List Char) :
    matchedTotal a b ≤ min a.length b.length :=
  matchedTotal_le_aux a.length a b le_rfl

lemma matchedTotal_nil : matchedTotal [] [] = 0 :=
  Nat.le_zero.mp (by simpa using matchedTotal_le_aux 0 [] [] (by simp))

lemma matchedTotal_self (a : List Char) : matchedTotal a a = a.length := by
  by_cases ha : a = []
  · subst ha
    exact matchedTotal_nil
  · have hlen : a.length ≠ 0 := fun h0 => ha (List.length_eq_zero.mp h0)
    unfold matchedTotal
    rw [longestMatch_self a ha]
    dsimp only
    rw [if_neg hlen, Nat.zero_add, List.drop_length, matchedTotal_nil,
      List.take_zero, matchedTotal_nil]
    omega

/-- `SequenceMatcher.ratio`: `2 * M / T` where `M` is the total matched size
and `T` the combined length, and `1.0` when both sequences are empty. -/
def ratcliffRatio (a b : List Char) : ℚ :=
  if a.length + b.length = 0 then 1
  else 2 * (matchedTotal a b : ℚ) / ((a.length + b.length : ℕ) : ℚ)

lemma ratcliffRatio_nonneg (a b : List Char) : 0 ≤ ratcliffRatio a b := by
  unfold ratcliffRatio
  split
  · norm_num
  · positivity

lemma ratcliffRatio_le_one (a b : List Char) : ratcliffRatio a b ≤ 1 := by
  unfold ratcliffRatio
  split
  · exact le_refl 1
  · rename_i h
    have hpos : 0 < a.length + b.length := Nat.pos_of_ne_zero h
    rw [div_le_one (by exact_mod_cast hpos)]
    have hm := matchedTotal_le a b
    have hnat : 2 * matchedTotal a b ≤ a.length + b.length := by omega
    exact_mod_cast hnat

lemma ratcliffRatio_self (a : List Char) : ratcliffRatio a a = 1 := by
  unfold ratcliffRatio
  split
  · rfl
  · rename_i h
    rw [matchedTotal_self]
    have hpos : (0:ℚ) < (a.length : ℚ) := by
      have : 0 < a.length := by omega
      exact_mod_cast this
    have hcast : ((a.length + a.length : ℕ) : ℚ) = 2 * (a.length : ℚ) := by
      push_cast
      ring
    rw [hcast]
    exact div_self (by positivity)

-- Rounding lemmas (monotonicity and unit-interval preservation).

lemma pyRound_bounds (x : ℚ) : ⌊x⌋ ≤ pyRound x ∧ pyRound x ≤ ⌊x⌋ + 1 := by
  unfold pyRound
  split_ifs <;> omega

lemma pyRound_mono {x y : ℚ} (h : x ≤ y) : pyRound x ≤ pyRound y := by
  have hf : ⌊x⌋ ≤ ⌊y⌋ := Int.floor_mono h
  rcases lt_or_eq_of_le hf with hlt | heq
  · have b1 := pyRound_bounds x
    have b2 := pyRound_bounds y
    omega
  · have hr : x - (⌊x⌋ : ℚ) ≤ y - (⌊y⌋ : ℚ) := by
      rw [← heq]
      linarith
    unfold pyRound
    rw [← heq]
    rw [← heq] at hr
    split_ifs <;> first | omega | linarith

lemma pyRound_zero : pyRound 0 = 0 := by
  simpa using pyRound_intCast 0

lemma round4_mono {x y : ℚ} (h : x ≤ y) : round4 x ≤ round4 y := by
  unfold round4
  have hm : pyRound (x * 10000) ≤ pyRound (y * 10000) :=
    pyRound_mono (by linarith)
  have hc : ((pyRound (x * 10000) : ℤ) : ℚ) ≤ ((pyRound (y * 10000) : ℤ) : ℚ) := by
    exact_mod_cast hm
  exact (div_le_div_iff_of_pos_right (by norm_num)).mpr hc

lemma round4_zero : round4 0 = 0 := by
  unfold round4
  rw [zero_mul, pyRound_zero]
  norm_num

lemma round4_one : round4 1 = 1 := by
  unfold round4
  rw [one_mul, show (10000:ℚ) = ((10000:ℤ):ℚ) by norm_num, pyRound_intCast]
  norm_num

lemma round4_mem_unit {x : ℚ} (h0 : 0 ≤ x) (h1 : x ≤ 1) :
    0 ≤ round4 x ∧ round4 x ≤ 1 :=
  ⟨round4_zero ▸ round4_mono h0, round4_one ▸ round4_mono h1⟩

-- § compute_content_metrics

/-- `tokens_a & tokens_b`. -/
def interTokens (a b : String) : Finset String := tokensOf a ∩ tokensOf b

/-- `tokens_a | tokens_b`. -/
def unionTokens (a b : String) : Finset String := tokensOf a ∪ tokensOf b

/-- `len(intersection) / len(union) if union else 1.0`. -/
def jaccardQ (a b : String) : ℚ :=
  if unionTokens a b ≠ ∅ then
    ((interTokens a b).card : ℚ) / ((unionTokens a b).card : ℚ)
  else 1

/-- `len(intersection) / min(len(tokens_a), len(tokens_b))`. -/
def overlapQ (a b : String) : ℚ :=
  ((interTokens a b).card : ℚ) /
    ((min (tokensOf a).card (tokensOf b).card : ℕ) : ℚ)

/-- `2 * len(intersection) / (len(tokens_a) + len(tokens_b))`. -/
def diceQ (a b : String) : ℚ :=
  2 * ((interTokens a b).card : ℚ) /
    (((tokensOf a).card + (tokensOf b).card : ℕ) : ℚ)

/-- `SequenceMatcher(None, norm_a[:50000], norm_b[:50000]).ratio()`. -/
def seqRatioQ (a b : String) : ℚ :=
  ratcliffRatio ((normalize_text a).toList.take 50000)
    ((normalize_text b).toList.take 50000)

/-- The record returned by `compute_content_metrics`. -/
structure ContentMetrics where
  jaccard : ℚ
  overlap : ℚ
  dice : ℚ
  sequence_ratio : ℚ
  word_count_a : ℕ
  word_count_b : ℕ
  common_words : ℕ
  unique_to_a : ℕ
  unique_to_b : ℕ
deriving DecidableEq

/-- `CrawlerComparison.compute_content_metrics`: the two token-set emptiness
branches, then the four similarity metrics (each rounded to 4 decimals) and
the token-set counts. -/
def compute_content_metrics (text_a text_b : String) : ContentMetrics :=
  if tokensOf text_a = ∅ ∧ tokensOf text_b = ∅ then
    { jaccard := 1, overlap := 1, dice := 1, sequence_ratio := 1,
      word_count_a := 0, word_count_b := 0, common_words := 0,
      unique_to_a := 0, unique_to_b := 0 }
  else if tokensOf text_a = ∅ ∨ tokensOf text_b = ∅ then
    { jaccard := 0, overlap := 0, dice := 0, sequence_ratio := 0,
      word_count_a := (tokensOf text_a).card,
      word_count_b := (tokensOf text_b).card, common_words := 0,
      unique_to_a := (tokensOf text_a).card,
      unique_to_b := (tokensOf text_b).card }
  else
    { jaccard := round4 (jaccardQ text_a text_b),
      overlap := round4 (overlapQ text_a text_b),
      dice := round4 (diceQ text_a text_b),
      sequence_ratio := round4 (seqRatioQ text_a text_b),
      word_count_a := (tokensOf text_a).card,
      word_count_b := (tokensOf text_b).card,
      common_words := (interTokens text_a text_b).card,
      unique_to_a := (tokensOf text_a \ tokensOf text_b).card,
      unique_to_b := (tokensOf text_b \ tokensOf text_a).card }

-- Facts about the individual metrics, used for claims C6 and C9.

lemma tokensOf_card_pos {a : String} (ha : tokensOf a ≠ ∅) :
    0 < (tokensOf a).card :=
  Finset.card_pos.mpr (Finset.nonempty_of_ne_empty ha)

lemma unionTokens_ne_empty {a b : String} (ha : tokensOf a ≠ ∅) :
    unionTokens a b ≠ ∅ := by
  unfold unionTokens
  intro h
  exact ha (Finset.union_eq_empty.mp h).1

lemma jaccardQ_bounds (a b : String) : 0 ≤ jaccardQ a b ∧ jaccardQ a b ≤ 1 := by
  unfold jaccardQ
  split_ifs with h
  · constructor
    · positivity
    · have hle : (interTokens a b).card ≤ (unionTokens a b).card :=
        Finset.card_le_card
          (Finset.Subset.trans Finset.inter_subset_left Finset.subset_union_left)
      have hpos : 0 < (unionTokens a b).card :=
        Finset.card_pos.mpr (Finset.nonempty_of_ne_empty h)
      rw [div_le_one (by exact_mod_cast hpos)]
      exact_mod_cast hle
  · norm_num

lemma overlapQ_bounds (a b : String) (ha : tokensOf a ≠ ∅) (hb : tokensOf b ≠ ∅) :
    0 ≤ overlapQ a b ∧ overlapQ a b ≤ 1 := by
  unfold overlapQ
  have hmin : 0 < min (tokensOf a).card (tokensOf b).card :=
    lt_min (tokensOf_card_pos ha) (tokensOf_card_pos hb)
  have hle : (interTokens a b).card ≤ min (tokensOf a).card (tokensOf b).card :=
    le_min (Finset.card_le_card Finset.inter_subset_left)
      (Finset.card_le_card Finset.inter_subset_right)
  constructor
  · positivity
  · rw [div_le_one (by exact_mod_cast hmin)]
    exact_mod_cast hle

lemma diceQ_bounds (a b : String) (ha : tokensOf a ≠ ∅) (hb : tokensOf b ≠ ∅) :
    0 ≤ diceQ a b ∧ diceQ a b ≤ 1 := by
  unfold diceQ
  have hca := tokensOf_card_pos ha
  have hcb := tokensOf_card_pos hb
  have hle : (interTokens a b).card ≤ (tokensOf a).card :=
    Finset.card_le_card Finset.inter_subset_left
  have hle' : (interTokens a b).card ≤ (tokensOf b).card :=
    Finset.card_le_card Finset.inter_subset_right
  have hs : 0 < (tokensOf a).card + (tokensOf b).card := by omega
  constructor
  · positivity
  · rw [div_le_one (by exact_mod_cast hs)]
    have hnat : 2 * (interTokens a b).card ≤
        (tokensOf a).card + (tokensOf b).card := by omega
    exact_mod_cast hnat

lemma jaccardQ_self {a : String} (ha : tokensOf a ≠ ∅) : jaccardQ a a = 1 := by
  unfold jaccardQ interTokens unionTokens
  simp only [Finset.inter_self, Finset.union_self]
  rw [if_pos ha]
  exact div_self (by exact_mod_cast (tokensOf_card_pos ha).ne')

lemma overlapQ_self {a : String} (ha : tokensOf a ≠ ∅) : overlapQ a a = 1 := by
  unfold overlapQ interTokens
  simp only [Finset.inter_self, min_self]
  exact div_self (by exact_mod_cast (tokensOf_card_pos ha).ne')

lemma diceQ_self {a : String} (ha : tokensOf a ≠ ∅) : diceQ a a = 1 := by
  unfold diceQ interTokens
  simp only [Finset.inter_self]
  have hc : (0:ℚ) < ((tokensOf a).card : ℚ) := by
    exact_mod_cast tokensOf_card_pos ha
  have hcast : (((tokensOf a).card + (tokensOf a).card : ℕ) : ℚ) =
      2 * ((tokensOf a).card : ℚ) := by
    push_cast
    ring
  rw [hcast]
  exact div_self (by positivity)

lemma seqRatioQ_self (a : String) : seqRatioQ a a = 1 := ratcliffRatio_self _

lemma diceQ_le_overlapQ (a b : String) (ha : tokensOf a ≠ ∅)
    (hb : tokensOf b ≠ ∅) : diceQ a b ≤ overlapQ a b := by
  unfold diceQ overlapQ
  have hmin : 0 < min (tokensOf a).card (tokensOf b).card :=
    lt_min (tokensOf_card_pos ha) (tokensOf_card_pos hb)
  have hs : 0 < (tokensOf a).card + (tokensOf b).card := by
    have := tokensOf_card_pos ha
    omega
  rw [div_le_div_iff₀ (by exact_mod_cast hs) (by exact_mod_cast hmin)]
  have hnat : 2 * (interTokens a b).card *
      min (tokensOf a).card (tokensOf b).card ≤
      (interTokens a b).card * ((tokensOf a).card + (tokensOf b).card) := by
    have h2m : 2 * min (tokensOf a).card (tokensOf b).card ≤
        (tokensOf a).card + (tokensOf b).card := by omega
    calc 2 * (interTokens a b).card * min (tokensOf a).card (tokensOf b).card
        = (interTokens a b).card *
          (2 * min (tokensOf a).card (tokensOf b).card) := by ring
      _ ≤ (interTokens a b).card * ((tokensOf a).card + (tokensOf b).card) :=
          Nat.mul_le_mul_left _ h2m
  exact_mod_cast hnat

lemma jaccardQ_le_diceQ (a b : String) (ha : tokensOf a ≠ ∅)
    (_hb : tokensOf b ≠ ∅) : jaccardQ a b ≤ diceQ a b := by
  unfold jaccardQ
  rw [if_pos (unionTokens_ne_empty ha)]
  unfold diceQ
  have hu : 0 < (unionTokens a b).card :=
    Finset.card_pos.mpr (Finset.nonempty_of_ne_empty (unionTokens_ne_empty ha))
  have hs : 0 < (tokensOf a).card + (tokensOf b).card := by
    have := tokensOf_card_pos ha
    omega
  rw [div_le_div_iff₀ (by exact_mod_cast hu) (by exact_mod_cast hs)]
  have hsum : (unionTokens a b).card + (interTokens a b).card =
      (tokensOf a).card + (tokensOf b).card := by
    unfold unionTokens interTokens
    exact Finset.card_union_add_card_inter _ _
  have hiu : (interTokens a b).card ≤ (unionTokens a b).card :=
    Finset.card_le_card
      (Finset.Subset.trans Finset.inter_subset_left Finset.subset_union_left)
  have hnat : (interTokens a b).card *
      ((tokensOf a).card + (tokensOf b).card) ≤
      2 * (interTokens a b).card * (unionTokens a b).card := by
    have hsq : (interTokens a b).card * (interTokens a b).card ≤
        (interTokens a b).card * (unionTokens a b).card :=
      Nat.mul_le_mul_left _ hiu
    calc (interTokens a b).card * ((tokensOf a).card + (tokensOf b).card)
        = (interTokens a b).card *
          ((unionTokens a b).card + (interTokens a b).card) := by rw [hsum]
      _ = (interTokens a b).card * (unionTokens a b).card +
          (interTokens a b).card * (interTokens a b).card := by ring
      _ ≤ (interTokens a b).card * (unionTokens a b).card +
          (interTokens a b).card * (unionTokens a b).card :=
          Nat.add_le_add_left hsq _
      _ = 2 * (interTokens a b).card * (unionTokens a b).card := by ring
  exact_mod_cast hnat

/-- Claim C6, counterexample: `" "` is a non-empty text, but paired with the
empty text every metric is 1.0 (the space tokenizes to nothing), not 0.0 as
the claim requires of an empty/non-empty pair. -/
theorem content_metrics_empty_dichotomy_counterexample :
    " " ≠ "" ∧
    compute_content_metrics "" " " =
      { jaccard := 1, overlap := 1, dice := 1, sequence_ratio := 1,
        word_count_a := 0, word_count_b := 0, common_words := 0,
        unique_to_a := 0, unique_to_b := 0 } := by
  refine ⟨by decide, ?_⟩
  unfold compute_content_metrics
  rw [if_pos ⟨by decide, by decide⟩]

/-- Claim C6, amended: every returned metric lies in `[0,1]`; a pair whose
token sets are BOTH empty scores 1.0 on every metric; a pair with exactly
one empty token set scores 0.0 on every metric (the code's dichotomy is on
the token sets obtained after normalization and tokenization, not on raw
text emptiness — a whitespace-only text has an empty token set); identical
texts score 1.0 on all four metrics; and non-empty disjoint token sets
score 0.0 on Jaccard, Overlap and Dice. -/
theorem content_metrics_properties :
    (∀ a b : String,
      (0 ≤ (compute_content_metrics a b).jaccard ∧
        (compute_content_metrics a b).jaccard ≤ 1) ∧
      (0 ≤ (compute_content_metrics a b).overlap ∧
        (compute_content_metrics a b).overlap ≤ 1) ∧
      (0 ≤ (compute_content_metrics a b).dice ∧
        (compute_content_metrics a b).dice ≤ 1) ∧
      (0 ≤ (compute_content_metrics a b).sequence_ratio ∧
        (compute_content_metrics a b).sequence_ratio ≤ 1)) ∧
    (∀ a b : String, tokensOf a = ∅ → tokensOf b = ∅ →
      compute_content_metrics a b = ⟨1, 1, 1, 1, 0, 0, 0, 0, 0⟩) ∧
    (∀ a b : String,
      (tokensOf a = ∅ ∧ tokensOf b ≠ ∅) ∨ (tokensOf a ≠ ∅ ∧ tokensOf b = ∅) →
      (compute_content_metrics a b).jaccard = 0 ∧
      (compute_content_metrics a b).overlap = 0 ∧
      (compute_content_metrics a b).dice = 0 ∧
      (compute_content_metrics a b).sequence_ratio = 0) ∧
    (∀ a : String,
      (compute_content_metrics a a).jaccard = 1 ∧
      (compute_content_metrics a a).overlap = 1 ∧
      (compute_content_metrics a a).dice = 1 ∧
      (compute_content_metrics a a).sequence_ratio = 1) ∧
    (∀ a b : String, tokensOf a ≠ ∅ → tokensOf b ≠ ∅ → interTokens a b = ∅ →
      (compute_content_metrics a b).jaccard = 0 ∧
      (compute_content_metrics a b).overlap = 0 ∧
      (compute_content_metrics a b).dice = 0) := by
  refine ⟨?_, ?_, ?_, ?_, ?_⟩
  · intro a b
    unfold compute_content_metrics
    split_ifs with h1 h2
    · norm_num
    · norm_num
    · push_neg at h2
      obtain ⟨ha, hb⟩ := h2
      have hj := jaccardQ_bounds a b
      have ho := overlapQ_bounds a b ha hb
      have hd := diceQ_bounds a b ha hb
      exact ⟨round4_mem_unit hj.1 hj.2, round4_mem_unit ho.1 ho.2,
        round4_mem_unit hd.1 hd.2,
        round4_mem_unit (ratcliffRatio_nonneg _ _) (ratcliffRatio_le_one _ _)⟩
  · intro a b h1 h2
    unfold compute_content_metrics
    rw [if_pos ⟨h1, h2⟩]
  · intro a b h
    have hnot : ¬(tokensOf a = ∅ ∧ tokensOf b = ∅) := by
      rcases h with ⟨_, h2⟩ | ⟨h1, _⟩
      · exact fun hc => h2 hc.2
      · exact fun hc => h1 hc.1
    have hor : tokensOf a = ∅ ∨ tokensOf b = ∅ := by
      rcases h with ⟨h1, _⟩ | ⟨_, h2⟩
      · exact Or.inl h1
      · exact Or.inr h2
    unfold compute_content_metrics
    rw [if_neg hnot, if_pos hor]
    exact ⟨rfl, rfl, rfl, rfl⟩
  · intro a
    by_cases he : tokensOf a = ∅
    · unfold compute_content_metrics
      rw [if_pos ⟨he, he⟩]
      exact ⟨rfl, rfl, rfl, rfl⟩
    · unfold compute_content_metrics
      rw [if_neg (fun hc => he hc.1), if_neg (fun hc => hc.elim he he)]
      refine ⟨?_, ?_, ?_, ?_⟩
      · show round4 (jaccardQ a a) = 1
        rw [jaccardQ_self he, round4_one]
      · show round4 (overlapQ a a) = 1
        rw [overlapQ_self he, round4_one]
      · show round4 (diceQ a a) = 1
        rw [diceQ_self he, round4_one]
      · show round4 (seqRatioQ a a) = 1
        rw [seqRatioQ_self, round4_one]
  · intro a b ha hb hint
    unfold compute_content_metrics
    rw [if_neg (fun hc => ha hc.1), if_neg (fun hc => hc.elim ha hb)]
    have hj : jaccardQ a b = 0 := by
      unfold jaccardQ
      rw [if_pos (unionTokens_ne_empty ha), hint]
      simp
    have hov : overlapQ a b = 0 := by
      unfold overlapQ
      rw [hint]
      simp
    have hd : diceQ a b = 0 := by
      unfold diceQ
      rw [hint]
      simp
    refine ⟨?_, ?_, ?_⟩
    · show round4 (jaccardQ a b) = 0
      rw [hj, round4_zero]
    · show round4 (overlapQ a b) = 0
      rw [hov, round4_zero]
    · show round4 (diceQ a b) = 0
      rw [hd, round4_zero]

/-- Witness for the amended C6 theorem at concrete texts: two empty-token
texts score all 1.0, an empty/non-empty token pair scores 0.0, identical
texts score 1.0. -/
theorem content_metrics_properties_witness :
    compute_content_metrics "" "" = ⟨1, 1, 1, 1, 0, 0, 0, 0, 0⟩ ∧
    (compute_content_metrics "" "x").jaccard = 0 ∧
    (compute_content_metrics "ab cd" "ab cd").jaccard = 1 := by
  refine ⟨content_metrics_properties.2.1 "" "" (by decide) (by decide), ?_, ?_⟩
  · exact (content_metrics_properties.2.2.1 "" "x"
      (Or.inl ⟨by decide, by decide⟩)).1
  · exact (content_metrics_properties.2.2.2.1 "ab cd").1

/-- Claim C9: the set-based metrics returned by `compute_content_metrics`
satisfy Overlap ≥ Dice ≥ Jaccard, an ordering that survives the 4-decimal
rounding applied to each value. -/
theorem set_metric_ordering (a b : String) :
    (compute_content_metrics a b).jaccard ≤ (compute_content_metrics a b).dice ∧
    (compute_content_metrics a b).dice ≤ (compute_content_metrics a b).overlap := by
  unfold compute_content_metrics
  split_ifs with h1 h2
  · exact ⟨le_refl _, le_refl _⟩
  · exact ⟨le_refl _, le_refl _⟩
  · push_neg at h2
    obtain ⟨ha, hb⟩ := h2
    constructor
    · show round4 (jaccardQ a b) ≤ round4 (diceQ a b)
      exact round4_mono (jaccardQ_le_diceQ a b ha hb)
    · show round4 (diceQ a b) ≤ round4 (overlapQ a b)
      exact round4_mono (diceQ_le_overlapQ a b ha hb)
